import Mathlib

/-!
# Precompile manager of polaris-geth (core/vm/precompile_manager.go)

A shallow embedding of the default precompile manager: the rule-set to table
selection (activePrecompiles), the lazily cached lookups (Has, Get) and the
gas-metered invocation wrapper (Run).

Conventions of the embedding

* The receiver pm is a pointer in Go; a method that may write through it
  returns the updated manager next to its result.
* A native operation may touch state of its own (the EVM state, counters of a
  test double, ...). That state is the type parameter σ, threaded through the
  operation's Run method as an explicit argument and result.
* uint64 values are natural numbers below 2 ^ 64; the one uint64 subtraction
  of the file is modelled with its wrap-around.
* Go values that can be nil (maps, slices, interface values, pointers, errors)
  are modelled with an explicit nil case.
-/

namespace PolarisGeth

/-! ## Data model -/

/-- The type common.Address, an array of 20 bytes, used only through equality. -/
abbrev Address := Fin (2 ^ 160)

/-- One byte. -/
abbrev Byte := Fin 256

/-- A Go byte slice; none is the nil slice. -/
abbrev ByteSlice := Option (List Byte)

/-- A Go pointer to a big integer; none is the nil pointer. -/
abbrev BigIntPtr := Option Int

/-- The modulus of uint64 arithmetic. -/
def UINT64_MOD : Nat := 2 ^ 64

/-- Go uint64 subtraction a - b on operands below 2 ^ 64: it wraps around. -/
def subUint64 (a b : Nat) : Nat := (a + UINT64_MOD - b) % UINT64_MOD

/-- Error values seen by the manager. ErrOutOfGas is the sentinel of package vm
(declared in errors.go); operationError stands for any other error value an
operation returns, told apart by a tag. An operation is free to return
ErrOutOfGas itself. -/
inductive VMError where
  | ErrOutOfGas : VMError
  | operationError (tag : Nat) : VMError
  deriving DecidableEq, Repr

/-- The context handed to an operation; the manager only ever passes
context.Background(). -/
inductive Context where
  | Background : Context
  deriving DecidableEq, Repr

/-- Modelled from the spec: the type params.Rules is declared in package params,
which is outside the files at hand. It is a record of boolean upgrade flags
(plus the chain id), one flag per named upgrade point, listed here in
activation order. -/
structure Rules where
  ChainID : BigIntPtr
  IsHomestead : Bool
  IsEIP150 : Bool
  IsEIP155 : Bool
  IsEIP158 : Bool
  IsByzantium : Bool
  IsConstantinople : Bool
  IsPetersburg : Bool
  IsIstanbul : Bool
  IsBerlin : Bool
  IsLondon : Bool
  IsMerge : Bool
  IsShanghai : Bool
  IsCancun : Bool
  IsPrague : Bool
  deriving DecidableEq, Repr

/-- Modelled from the spec: the interface PrecompiledContract is declared in
contracts.go, which is outside the files at hand. A native operation reports
the gas it requires for an input (a pure cost function returning a uint64) and
can execute; execution receives the context, input, caller, value and readonly
flag, and yields output bytes and an error (none for success). Execution may
read and write the operation's own state σ. -/
structure PrecompiledContract (σ : Type) where
  RequiredGas : ByteSlice → Nat
  Run : Context → ByteSlice → Address → BigIntPtr → Bool → σ →
    (ByteSlice × Option VMError) × σ

/-- A Go value of type map[common.Address]PrecompiledContract. The nil map has
no keys. An allocated map sends an address to none when the address is not a
key, and to the bound interface value otherwise (which, for an interface type,
may itself be the nil interface, written none). -/
inductive PrecompileMap (σ : Type) where
  | nil : PrecompileMap σ
  | alloc (entries : Address → Option (Option (PrecompiledContract σ))) : PrecompileMap σ

/-- The comparison m == nil on a map value. -/
def PrecompileMap.isNil {σ : Type} : PrecompileMap σ → Bool
  | .nil => true
  | .alloc _ => false

/-- The two-result index expression v, found := m[addr]: the zero value (the
nil interface) and false when addr is not a key, also on the nil map. -/
def PrecompileMap.index {σ : Type} (m : PrecompileMap σ) (addr : Address) :
    Option (PrecompiledContract σ) × Bool :=
  match m with
  | .nil => (none, false)
  | .alloc entries =>
    match entries addr with
    | none => (none, false)
    | some v => (v, true)

/-- The key set of a map value, as a decidable predicate. -/
def PrecompileMap.hasKey {σ : Type} (m : PrecompileMap σ) (addr : Address) : Bool :=
  match m with
  | .nil => false
  | .alloc entries => (entries addr).isSome

/-- The binding of a key in a map value: none when addr is not a key, some v
when addr is bound to the interface value v. -/
def PrecompileMap.binding {σ : Type} (m : PrecompileMap σ) (addr : Address) :
    Option (Option (PrecompiledContract σ)) :=
  match m with
  | .nil => none
  | .alloc entries => entries addr

/-- Modelled from the spec: the four package-level tables
PrecompiledContractsHomestead, PrecompiledContractsByzantium,
PrecompiledContractsIstanbul and PrecompiledContractsBerlin are declared in
contracts.go, which is outside the files at hand. They are fixed mappings from
address to native operation, one per upgrade point, taken here as a
parameter. -/
structure Registry (σ : Type) where
  PrecompiledContractsHomestead : PrecompileMap σ
  PrecompiledContractsByzantium : PrecompileMap σ
  PrecompiledContractsIstanbul : PrecompileMap σ
  PrecompiledContractsBerlin : PrecompileMap σ

/-- The struct precompileManager: the rule set and the cache slot for the
resolved table (nil until resolved). -/
structure precompileManager (σ : Type) where
  rules : Rules
  precompiles : PrecompileMap σ

/-! ## Operations -/

/-- NewPrecompileManager: only the rules field is set; the cache slot has the
zero value of its type, the nil map. -/
def NewPrecompileManager {σ : Type} (rules : Rules) : precompileManager σ :=
  ⟨rules, .nil⟩

/-- The method activePrecompiles: a switch over the flags, newest first. -/
def precompileManager.activePrecompiles {σ : Type} (reg : Registry σ)
    (pm : precompileManager σ) : PrecompileMap σ :=
  if pm.rules.IsBerlin then reg.PrecompiledContractsBerlin
  else if pm.rules.IsIstanbul then reg.PrecompiledContractsIstanbul
  else if pm.rules.IsByzantium then reg.PrecompiledContractsByzantium
  else reg.PrecompiledContractsHomestead

/-- The statement shared by Has and Get:
if pm.precompiles == nil then pm.precompiles = pm.activePrecompiles(). -/
def precompileManager.resolve {σ : Type} (reg : Registry σ)
    (pm : precompileManager σ) : precompileManager σ :=
  if pm.precompiles.isNil then ⟨pm.rules, pm.activePrecompiles reg⟩ else pm

/-- The method Has: resolve the table if the cache slot is nil, then report
whether addr is a key of the cached table. -/
def precompileManager.Has {σ : Type} (reg : Registry σ) (pm : precompileManager σ)
    (addr : Address) : Bool × precompileManager σ :=
  let pm1 := pm.resolve reg
  ((pm1.precompiles.index addr).2, pm1)

/-- The method Get: resolve the table if the cache slot is nil, then return
the value of the one-result index expression pm.precompiles[addr]. -/
def precompileManager.Get {σ : Type} (reg : Registry σ) (pm : precompileManager σ)
    (addr : Address) : Option (PrecompiledContract σ) × precompileManager σ :=
  let pm1 := pm.resolve reg
  ((pm1.precompiles.index addr).1, pm1)

/-- The three results of Run. -/
structure RunResult where
  ret : ByteSlice
  remainingGas : Nat
  err : Option VMError
  deriving DecidableEq, Repr

/-- The method Run. The state handle is ignored and the receiver is neither
read nor written; the operation's state w is passed to, and returned from, the
operation's own Run when that is invoked. -/
def precompileManager.Run {σ S : Type} (_pm : precompileManager σ) (_sdb : S)
    (p : PrecompiledContract σ) (input : ByteSlice) (caller : Address)
    (value : BigIntPtr) (suppliedGas : Nat) (readonly : Bool) (w : σ) :
    RunResult × σ :=
  let gasCost := p.RequiredGas input
  if gasCost > suppliedGas then
    (⟨none, 0, some VMError.ErrOutOfGas⟩, w)
  else
    let suppliedGas1 := subUint64 suppliedGas gasCost
    let r := p.Run Context.Background input caller value readonly w
    (⟨r.1.1, suppliedGas1, r.1.2⟩, r.2)

/-! ## Test doubles and call sequences -/

/-- One recorded invocation of an operation's execution method, with the
arguments it received. -/
structure RunCall where
  ctx : Context
  input : ByteSlice
  caller : Address
  value : BigIntPtr
  readonly : Bool
  deriving DecidableEq, Repr

/-- A call-recording test double around p: it charges and behaves as p does on
p's own state, and appends every invocation of its execution method to a log
kept beside that state. The length of the log is the call count. -/
def recordingDouble {σ : Type} (p : PrecompiledContract σ) :
    PrecompiledContract (σ × List RunCall) where
  RequiredGas := p.RequiredGas
  Run ctx input caller value readonly w :=
    let r := p.Run ctx input caller value readonly w.1
    (r.1, (r.2, w.2 ++ [⟨ctx, input, caller, value, readonly⟩]))

/-- A call a client can make on a dispatcher. -/
inductive Call (σ S : Type) where
  | has (addr : Address) : Call σ S
  | get (addr : Address) : Call σ S
  | run (sdb : S) (p : PrecompiledContract σ) (input : ByteSlice) (caller : Address)
      (value : BigIntPtr) (suppliedGas : Nat) (readonly : Bool) : Call σ S

/-- The effect of one call on the dispatcher and on the operations' state.
Has and Get hand back the manager they may have written to; Run has no
assignment through its receiver, so the manager is carried over as it is. -/
def Call.apply {σ S : Type} (reg : Registry σ) :
    Call σ S → precompileManager σ × σ → precompileManager σ × σ
  | .has addr, s => ((s.1.Has reg addr).2, s.2)
  | .get addr, s => ((s.1.Get reg addr).2, s.2)
  | .run sdb p input caller value suppliedGas readonly, s =>
    (s.1, (s.1.Run sdb p input caller value suppliedGas readonly s.2).2)

/-- The effect of a sequence of calls, first call first. -/
def runCalls {σ S : Type} (reg : Registry σ) (calls : List (Call σ S))
    (s : precompileManager σ × σ) : precompileManager σ × σ :=
  calls.foldl (fun st c => c.apply reg st) s

/-- A sample operation over a counter state: it costs 3000 gas whatever the
input, echoes its input and bumps the counter. -/
def sampleOp : PrecompiledContract Nat where
  RequiredGas := fun _ => 3000
  Run := fun _ input _ _ _ w => ((input, none), w + 1)

/-- A sample operation that always fails with an error of its own, after
bumping the counter, returning partial output. -/
def failingOp : PrecompiledContract Nat where
  RequiredGas := fun _ => 3000
  Run := fun _ _ _ _ _ w => ((some [7], some (VMError.operationError 42)), w + 1)

/-- An allocated table binding the addresses lo, ..., hi to the operation op. -/
def rangeTable {σ : Type} (op : PrecompiledContract σ) (lo hi : Nat) : PrecompileMap σ :=
  .alloc (fun addr => if lo ≤ addr.val ∧ addr.val ≤ hi then some (some op) else none)

/-- A sample registry shaped like the one of the library: addresses 1 to 4 at
Homestead, 1 to 8 at Byzantium, 1 to 9 at Istanbul and Berlin. -/
def sampleRegistry : Registry Nat where
  PrecompiledContractsHomestead := rangeTable sampleOp 1 4
  PrecompiledContractsByzantium := rangeTable sampleOp 1 8
  PrecompiledContractsIstanbul := rangeTable sampleOp 1 9
  PrecompiledContractsBerlin := rangeTable sampleOp 1 9

/-- The rule set with only the base flag (Homestead) set. -/
def baseRules : Rules :=
  ⟨none, true, false, false, false, false, false, false, false, false, false,
    false, false, false, false⟩

/-- The rule set with every flag up to Berlin set. -/
def berlinRules : Rules :=
  ⟨none, true, true, true, true, true, true, true, true, true, false,
    false, false, false, false⟩

/-- The key set of m1 is included in the key set of m2. -/
def PrecompileMap.keysSubset {σ : Type} (m1 m2 : PrecompileMap σ) : Prop :=
  ∀ addr : Address, m1.hasKey addr = true → m2.hasKey addr = true

/-- The registry tables are additively nested: each upgrade point keeps every
address of the previous one. -/
def Registry.Nested {σ : Type} (reg : Registry σ) : Prop :=
  reg.PrecompiledContractsHomestead.keysSubset reg.PrecompiledContractsByzantium
    ∧ reg.PrecompiledContractsByzantium.keysSubset reg.PrecompiledContractsIstanbul
    ∧ reg.PrecompiledContractsIstanbul.keysSubset reg.PrecompiledContractsBerlin

/-- Boolean implication. -/
def implies (a b : Bool) : Bool := !a || b

/-- The chain invariant of a rule set: a set flag of a later upgrade point
implies the flag of the upgrade point before it. -/
def Rules.chain (r : Rules) : Bool :=
  implies r.IsEIP150 r.IsHomestead && implies r.IsEIP155 r.IsEIP150
    && implies r.IsEIP158 r.IsEIP155 && implies r.IsByzantium r.IsEIP158
    && implies r.IsConstantinople r.IsByzantium
    && implies r.IsPetersburg r.IsConstantinople
    && implies r.IsIstanbul r.IsPetersburg && implies r.IsBerlin r.IsIstanbul
    && implies r.IsLondon r.IsBerlin && implies r.IsMerge r.IsLondon
    && implies r.IsShanghai r.IsMerge && implies r.IsCancun r.IsShanghai
    && implies r.IsPrague r.IsCancun

/-- Every flag set in r1 is set in r2. -/
def Rules.flagsLE (r1 r2 : Rules) : Bool :=
  implies r1.IsHomestead r2.IsHomestead && implies r1.IsEIP150 r2.IsEIP150
    && implies r1.IsEIP155 r2.IsEIP155 && implies r1.IsEIP158 r2.IsEIP158
    && implies r1.IsByzantium r2.IsByzantium
    && implies r1.IsConstantinople r2.IsConstantinople
    && implies r1.IsPetersburg r2.IsPetersburg
    && implies r1.IsIstanbul r2.IsIstanbul && implies r1.IsBerlin r2.IsBerlin
    && implies r1.IsLondon r2.IsLondon && implies r1.IsMerge r2.IsMerge
    && implies r1.IsShanghai r2.IsShanghai && implies r1.IsCancun r2.IsCancun
    && implies r1.IsPrague r2.IsPrague

/-- Whether a call is a Run call. -/
def Call.isRun {σ S : Type} : Call σ S → Bool
  | .run _ _ _ _ _ _ _ => true
  | _ => false

/-- A table that binds address 1 to the nil interface and nothing else. -/
def nilBindingTable : PrecompileMap Nat :=
  .alloc (fun addr => if addr.val = 1 then some none else none)

/-- A lookup query a client can make on a dispatcher. -/
inductive Query where
  | has (addr : Address) : Query
  | get (addr : Address) : Query
  deriving DecidableEq, Repr

/-- The answer to a lookup query: the boolean of Has or the interface value of
Get. -/
inductive Answer (σ : Type) where
  | found (b : Bool) : Answer σ
  | contract (p : Option (PrecompiledContract σ)) : Answer σ

/-- Asking one query: the answer and the manager as the call left it. -/
def Query.ask {σ : Type} (reg : Registry σ) :
    Query → precompileManager σ → Answer σ × precompileManager σ
  | .has addr, pm => (.found (pm.Has reg addr).1, (pm.Has reg addr).2)
  | .get addr, pm => (.contract (pm.Get reg addr).1, (pm.Get reg addr).2)

/-- The answers to a sequence of queries made one after the other on the same
dispatcher, first query first. -/
def answers {σ : Type} (reg : Registry σ) :
    List Query → precompileManager σ → List (Answer σ)
  | [], _ => []
  | q :: qs, pm => (q.ask reg pm).1 :: answers reg qs (q.ask reg pm).2

/-- The eager dispatcher of the refinement statement, in its own words: a
dispatcher whose cache slot is set to activePrecompiles(rules) at
construction. It is not in the source, which only has the lazy constructor. -/
def NewEagerPrecompileManager {σ : Type} (reg : Registry σ) (rules : Rules) :
    precompileManager σ :=
  ⟨rules, (NewPrecompileManager rules : precompileManager σ).activePrecompiles reg⟩

/-- The rule set with every flag up to Shanghai set: London, Merge and Shanghai
on top of Berlin. -/
def shanghaiRules : Rules :=
  ⟨some 80085, true, true, true, true, true, true, true, true, true, true,
    true, true, false, false⟩

/-- A registry whose four tables are all the nil map: no address is a key. -/
def nilRegistry : Registry Nat := ⟨.nil, .nil, .nil, .nil⟩

/-! ## The gas gate -/

theorem subUint64_of_le {a b : Nat} (ha : a < UINT64_MOD) (hb : b ≤ a) :
    subUint64 a b = a - b := by
  unfold subUint64
  have h1 : a + UINT64_MOD - b = (a - b) + UINT64_MOD := by omega
  rw [h1, Nat.add_mod_right]
  exact Nat.mod_eq_of_lt (by omega)

/-- C1. Gas gate, failing side: when the operation requires more gas than was
supplied, Run returns the nil output, remaining gas 0 and ErrOutOfGas, and the
operation's state is handed back untouched; run against the call-recording
double of p, the log of executions is unchanged, so the execution method was
invoked zero times. -/
theorem Run_out_of_gas {σ S : Type} (pm : precompileManager σ)
    (pmd : precompileManager (σ × List RunCall)) (sdb : S)
    (p : PrecompiledContract σ) (input : ByteSlice) (caller : Address)
    (value : BigIntPtr) (suppliedGas : Nat) (readonly : Bool) (w : σ)
    (log : List RunCall) (h : p.RequiredGas input > suppliedGas) :
    pm.Run sdb p input caller value suppliedGas readonly w
        = (⟨none, 0, some VMError.ErrOutOfGas⟩, w)
      ∧ pmd.Run sdb (recordingDouble p) input caller value suppliedGas readonly (w, log)
        = (⟨none, 0, some VMError.ErrOutOfGas⟩, (w, log)) := by
  constructor
  · simp [precompileManager.Run, h]
  · simp [precompileManager.Run, recordingDouble, h]

/-- The sample operation costs 3000; with 2000 supplied nothing runs. -/
theorem Run_out_of_gas_witness :
    (NewPrecompileManager baseRules).Run () sampleOp (some [1, 2]) 5 none 2000 false 0
        = (⟨none, 0, some VMError.ErrOutOfGas⟩, 0)
      ∧ (NewPrecompileManager baseRules).Run () (recordingDouble sampleOp) (some [1, 2]) 5
          none 2000 false (0, [])
        = (⟨none, 0, some VMError.ErrOutOfGas⟩, (0, [])) :=
  Run_out_of_gas _ _ () sampleOp (some [1, 2]) 5 none 2000 false 0 [] (by decide)

/-- C2. Gas gate, passing side: when the supplied gas (a uint64) covers the
required gas, equality included, Run returns exactly the output and error of
one execution of p on the given arguments, with remaining gas
suppliedGas - RequiredGas(input), and hands back the state that one execution
left; run against the call-recording double of p, the log grows by exactly one
entry, so the execution method was invoked exactly once. -/
theorem Run_enough_gas {σ S : Type} (pm : precompileManager σ)
    (pmd : precompileManager (σ × List RunCall)) (sdb : S)
    (p : PrecompiledContract σ) (input : ByteSlice) (caller : Address)
    (value : BigIntPtr) (suppliedGas : Nat) (readonly : Bool) (w : σ)
    (log : List RunCall) (hS : suppliedGas < UINT64_MOD)
    (hG : suppliedGas ≥ p.RequiredGas input) :
    pm.Run sdb p input caller value suppliedGas readonly w
        = (⟨(p.Run Context.Background input caller value readonly w).1.1,
            suppliedGas - p.RequiredGas input,
            (p.Run Context.Background input caller value readonly w).1.2⟩,
           (p.Run Context.Background input caller value readonly w).2)
      ∧ pmd.Run sdb (recordingDouble p) input caller value suppliedGas readonly (w, log)
        = (⟨(p.Run Context.Background input caller value readonly w).1.1,
            suppliedGas - p.RequiredGas input,
            (p.Run Context.Background input caller value readonly w).1.2⟩,
           ((p.Run Context.Background input caller value readonly w).2,
            log ++ [⟨Context.Background, input, caller, value, readonly⟩])) := by
  have hnot : ¬ p.RequiredGas input > suppliedGas := by omega
  constructor
  · simp [precompileManager.Run, hnot, subUint64_of_le hS hG]
  · simp [precompileManager.Run, recordingDouble, hnot, subUint64_of_le hS hG]

/-- The sample operation costs 3000; with 5000 supplied it runs once and 2000
remain. -/
theorem Run_enough_gas_witness :
    (NewPrecompileManager baseRules).Run () sampleOp (some [1, 2]) 5 none 5000 false 0
        = (⟨some [1, 2], 2000, none⟩, 1)
      ∧ (NewPrecompileManager baseRules).Run () (recordingDouble sampleOp) (some [1, 2]) 5
          none 5000 false (0, [])
        = (⟨some [1, 2], 2000, none⟩,
           (1, [⟨Context.Background, some [1, 2], 5, none, false⟩])) :=
  Run_enough_gas _ _ () sampleOp (some [1, 2]) 5 none 5000 false 0 []
    (by decide) (by decide)

/-- C3. Operation errors pass through unchanged: when the supplied gas (a
uint64) covers the required gas and the execution of p returns the output
output and the error e, Run returns exactly output and exactly e, with
remaining gas suppliedGas - RequiredGas(input), neither clamped nor zeroed. -/
theorem Run_error_passthrough {σ S : Type} (pm : precompileManager σ) (sdb : S)
    (p : PrecompiledContract σ) (input : ByteSlice) (caller : Address)
    (value : BigIntPtr) (suppliedGas : Nat) (readonly : Bool) (w w1 : σ)
    (output : ByteSlice) (e : VMError) (hS : suppliedGas < UINT64_MOD)
    (hG : suppliedGas ≥ p.RequiredGas input)
    (hrun : p.Run Context.Background input caller value readonly w
      = ((output, some e), w1)) :
    pm.Run sdb p input caller value suppliedGas readonly w
      = (⟨output, suppliedGas - p.RequiredGas input, some e⟩, w1) := by
  have hnot : ¬ p.RequiredGas input > suppliedGas := by omega
  simp [precompileManager.Run, hnot, subUint64_of_le hS hG, hrun]

/-- The failing sample operation: its partial output and its own error come
back with 5000 - 3000 gas remaining. -/
theorem Run_error_passthrough_witness :
    (NewPrecompileManager baseRules).Run () failingOp (some [1, 2]) 5 none 5000 true 0
      = (⟨some [7], 2000, some (VMError.operationError 42)⟩, 1) :=
  Run_error_passthrough _ () failingOp (some [1, 2]) 5 none 5000 true 0 1
    (some [7]) (VMError.operationError 42) (by decide) (by decide) rfl

/-! ## Table selection -/

/-- C4. Table selection is a total newest-first priority match: the Berlin
table if IsBerlin is set; otherwise the Istanbul table if IsIstanbul is set;
otherwise the Byzantium table if IsByzantium is set; otherwise the Homestead
table. The result is always one of the four registry tables. -/
theorem activePrecompiles_priority {σ : Type} (reg : Registry σ)
    (pm : precompileManager σ) :
    (pm.rules.IsBerlin = true →
        pm.activePrecompiles reg = reg.PrecompiledContractsBerlin)
      ∧ (pm.rules.IsBerlin = false → pm.rules.IsIstanbul = true →
        pm.activePrecompiles reg = reg.PrecompiledContractsIstanbul)
      ∧ (pm.rules.IsBerlin = false → pm.rules.IsIstanbul = false →
        pm.rules.IsByzantium = true →
        pm.activePrecompiles reg = reg.PrecompiledContractsByzantium)
      ∧ (pm.rules.IsBerlin = false → pm.rules.IsIstanbul = false →
        pm.rules.IsByzantium = false →
        pm.activePrecompiles reg = reg.PrecompiledContractsHomestead)
      ∧ (pm.activePrecompiles reg = reg.PrecompiledContractsBerlin
        ∨ pm.activePrecompiles reg = reg.PrecompiledContractsIstanbul
        ∨ pm.activePrecompiles reg = reg.PrecompiledContractsByzantium
        ∨ pm.activePrecompiles reg = reg.PrecompiledContractsHomestead) := by
  unfold precompileManager.activePrecompiles
  cases pm.rules.IsBerlin <;> cases pm.rules.IsIstanbul <;>
    cases pm.rules.IsByzantium <;> simp

/-! ## Lookups and the cache -/

theorem index_snd_eq_hasKey {σ : Type} (m : PrecompileMap σ) (addr : Address) :
    (m.index addr).2 = m.hasKey addr := by
  cases m with
  | nil => rfl
  | alloc entries =>
    simp only [PrecompileMap.index, PrecompileMap.hasKey]
    cases entries addr <;> rfl

theorem index_fst_of_binding {σ : Type} (m : PrecompileMap σ) (addr : Address) :
    (m.index addr).1 = (m.binding addr).join := by
  cases m with
  | nil => rfl
  | alloc entries =>
    simp only [PrecompileMap.index, PrecompileMap.binding]
    cases entries addr <;> rfl

theorem hasKey_eq_binding_isSome {σ : Type} (m : PrecompileMap σ) (addr : Address) :
    m.hasKey addr = (m.binding addr).isSome := by
  cases m <;> rfl

theorem activePrecompiles_congr {σ : Type} (reg : Registry σ)
    (pm1 pm2 : precompileManager σ) (h : pm1.rules = pm2.rules) :
    pm1.activePrecompiles reg = pm2.activePrecompiles reg := by
  simp [precompileManager.activePrecompiles, h]

theorem resolve_rules {σ : Type} (reg : Registry σ) (pm : precompileManager σ) :
    (pm.resolve reg).rules = pm.rules := by
  unfold precompileManager.resolve
  split <;> rfl

theorem resolve_of_isNil {σ : Type} (reg : Registry σ) (pm : precompileManager σ)
    (h : pm.precompiles.isNil = true) :
    (pm.resolve reg).precompiles = pm.activePrecompiles reg := by
  simp [precompileManager.resolve, h]

theorem resolve_of_not_isNil {σ : Type} (reg : Registry σ) (pm : precompileManager σ)
    (h : pm.precompiles.isNil = false) : pm.resolve reg = pm := by
  simp [precompileManager.resolve, h]

/-- Resolving twice finds the same table as resolving once. -/
theorem resolve_resolve_precompiles {σ : Type} (reg : Registry σ)
    (pm : precompileManager σ) :
    ((pm.resolve reg).resolve reg).precompiles = (pm.resolve reg).precompiles := by
  cases h : pm.precompiles.isNil with
  | false => rw [resolve_of_not_isNil reg pm h, resolve_of_not_isNil reg pm h]
  | true =>
    cases h2 : (pm.resolve reg).precompiles.isNil with
    | false => rw [resolve_of_not_isNil reg _ h2]
    | true =>
      rw [resolve_of_isNil reg _ h2, resolve_of_isNil reg pm h]
      exact activePrecompiles_congr reg _ _ (resolve_rules reg pm)

theorem apply_rules {σ S : Type} (reg : Registry σ) (c : Call σ S)
    (s : precompileManager σ × σ) : (c.apply reg s).1.rules = s.1.rules := by
  cases c <;>
    simp [Call.apply, precompileManager.Has, precompileManager.Get, resolve_rules]

/-- The table a lookup would answer from is the same before and after a call. -/
theorem apply_resolve_precompiles {σ S : Type} (reg : Registry σ) (c : Call σ S)
    (s : precompileManager σ × σ) :
    ((c.apply reg s).1.resolve reg).precompiles = (s.1.resolve reg).precompiles := by
  cases c <;>
    simp [Call.apply, precompileManager.Has, precompileManager.Get,
      resolve_resolve_precompiles]

/-- A call changes the cache slot only by resolving it. -/
theorem apply_precompiles {σ S : Type} (reg : Registry σ) (c : Call σ S)
    (s : precompileManager σ × σ) :
    (c.apply reg s).1.precompiles = s.1.precompiles
      ∨ (c.apply reg s).1.precompiles = (s.1.resolve reg).precompiles := by
  cases c <;> simp [Call.apply, precompileManager.Has, precompileManager.Get]

theorem runCalls_nil {σ S : Type} (reg : Registry σ) (s : precompileManager σ × σ) :
    runCalls reg ([] : List (Call σ S)) s = s := rfl

theorem runCalls_cons {σ S : Type} (reg : Registry σ) (c : Call σ S)
    (calls : List (Call σ S)) (s : precompileManager σ × σ) :
    runCalls reg (c :: calls) s = runCalls reg calls (c.apply reg s) := rfl

theorem runCalls_rules {σ S : Type} (reg : Registry σ) (calls : List (Call σ S))
    (s : precompileManager σ × σ) : (runCalls reg calls s).1.rules = s.1.rules := by
  induction calls generalizing s with
  | nil => rfl
  | cons c calls ih => rw [runCalls_cons, ih, apply_rules]

theorem runCalls_resolve_precompiles {σ S : Type} (reg : Registry σ)
    (calls : List (Call σ S)) (s : precompileManager σ × σ) :
    ((runCalls reg calls s).1.resolve reg).precompiles
      = (s.1.resolve reg).precompiles := by
  induction calls generalizing s with
  | nil => rfl
  | cons c calls ih => rw [runCalls_cons, ih, apply_resolve_precompiles]

/-- Once the cache slot is not nil, no sequence of calls changes it. -/
theorem runCalls_precompiles_of_not_isNil {σ S : Type} (reg : Registry σ)
    (calls : List (Call σ S)) (s : precompileManager σ × σ)
    (h : s.1.precompiles.isNil = false) :
    (runCalls reg calls s).1.precompiles = s.1.precompiles := by
  induction calls generalizing s with
  | nil => rfl
  | cons c calls ih =>
    have hc : (c.apply reg s).1.precompiles = s.1.precompiles := by
      rcases apply_precompiles reg c s with h1 | h1
      · exact h1
      · rw [h1, resolve_of_not_isNil reg s.1 h]
    rw [runCalls_cons, ih _ (by rw [hc]; exact h), hc]

/-- In every state, the cache slot is as it was at the start or holds the
table resolved at the start. -/
theorem runCalls_precompiles {σ S : Type} (reg : Registry σ)
    (calls : List (Call σ S)) (s : precompileManager σ × σ) :
    (runCalls reg calls s).1.precompiles = s.1.precompiles
      ∨ (runCalls reg calls s).1.precompiles = (s.1.resolve reg).precompiles := by
  induction calls generalizing s with
  | nil => exact Or.inl rfl
  | cons c calls ih =>
    rw [runCalls_cons]
    rcases ih (c.apply reg s) with h1 | h1
    · rw [h1]
      exact apply_precompiles reg c s
    · rw [h1, apply_resolve_precompiles]
      exact Or.inr rfl

theorem resolve_New {σ : Type} (reg : Registry σ) (rules : Rules) :
    ((NewPrecompileManager rules : precompileManager σ).resolve reg).precompiles
      = (NewPrecompileManager rules : precompileManager σ).activePrecompiles reg :=
  resolve_of_isNil reg _ rfl

/-- C5. For a dispatcher built by NewPrecompileManager(rules), after any
sequence of Has, Get and Run calls, Has(a) is true if and only if a is a key of
the table that activePrecompiles selects for rules. -/
theorem Has_iff_key {σ S : Type} (reg : Registry σ) (rules : Rules)
    (calls : List (Call σ S)) (w : σ) (a : Address) :
    ((runCalls reg calls (NewPrecompileManager rules, w)).1.Has reg a).1 = true
      ↔ ((NewPrecompileManager rules : precompileManager σ).activePrecompiles
          reg).hasKey a = true := by
  simp only [precompileManager.Has]
  rw [index_snd_eq_hasKey, runCalls_resolve_precompiles, resolve_New]

/-- C6. For a dispatcher built by NewPrecompileManager(rules), in any state
reached by Has, Get and Run calls: Get(a) returns the value bound to a in the
table selected for rules when a is a key of it, and the nil result when a is
not a key (Get is total: a missing address is answered, not failed on).
Provided the selected table does not bind a to the nil interface, as no table
of operations does, Get(a) is present exactly when Has(a) is true. -/
theorem Get_spec {σ S : Type} (reg : Registry σ) (rules : Rules)
    (calls : List (Call σ S)) (w : σ) (a : Address) :
    (∀ v, ((NewPrecompileManager rules : precompileManager σ).activePrecompiles
          reg).binding a = some v →
        ((runCalls reg calls (NewPrecompileManager rules, w)).1.Get reg a).1 = v)
      ∧ (((NewPrecompileManager rules : precompileManager σ).activePrecompiles
          reg).hasKey a = false →
        ((runCalls reg calls (NewPrecompileManager rules, w)).1.Get reg a).1 = none)
      ∧ (((NewPrecompileManager rules : precompileManager σ).activePrecompiles
          reg).binding a ≠ some none →
        (((runCalls reg calls (NewPrecompileManager rules, w)).1.Get reg a).1.isSome
            = true
          ↔ ((runCalls reg calls (NewPrecompileManager rules, w)).1.Has reg a).1
            = true)) := by
  simp only [precompileManager.Get, precompileManager.Has]
  rw [index_snd_eq_hasKey, index_fst_of_binding, runCalls_resolve_precompiles,
    resolve_New, hasKey_eq_binding_isSome]
  generalize ((NewPrecompileManager rules : precompileManager σ).activePrecompiles
    reg).binding a = b
  match b with
  | none => simp
  | some (some v) => simp
  | some none => simp

/-- The presence part of Get_spec on the sample registry, at address 3 of the
Homestead table, after a Has and a Run call. -/
theorem Get_spec_witness :
    ((runCalls sampleRegistry [Call.has 9, Call.run () sampleOp none 0 none 5000 false]
        (NewPrecompileManager baseRules, 0)).1.Get sampleRegistry 3).1.isSome = true
      ↔ ((runCalls sampleRegistry [Call.has 9, Call.run () sampleOp none 0 none 5000 false]
        (NewPrecompileManager baseRules, 0)).1.Has sampleRegistry 3).1 = true :=
  (Get_spec sampleRegistry baseRules
    [Call.has 9, Call.run () sampleOp none 0 none 5000 false] 0 3).2.2
    (by simp [precompileManager.activePrecompiles, NewPrecompileManager, baseRules,
      sampleRegistry, rangeTable, PrecompileMap.binding])

/-- Why the presence part of Get_spec carries its proviso: in a table that binds
address 1 to the nil interface, Has(1) is true while Get(1) is nil. -/
theorem Get_of_nil_binding :
    ((NewPrecompileManager baseRules).Has
        ⟨nilBindingTable, nilBindingTable, nilBindingTable, nilBindingTable⟩ 1).1 = true
      ∧ ((NewPrecompileManager baseRules).Get
        ⟨nilBindingTable, nilBindingTable, nilBindingTable, nilBindingTable⟩ 1).1.isSome
        = false := by
  constructor <;> rfl

/-- C7, as stated, fails for Run: on the sample registry, whose tables are
allocated maps, a fresh dispatcher whose first call is Run still has the nil
cache slot afterwards, which is not the table selected for its rule set. -/
theorem cache_after_first_Run_counterexample :
    ((Call.run () sampleOp (some [1, 2]) 5 none 5000 false).apply sampleRegistry
        (NewPrecompileManager baseRules, 0)).1.precompiles.isNil = true
      ∧ ((NewPrecompileManager baseRules : precompileManager Nat).activePrecompiles
          sampleRegistry).isNil = false
      ∧ ((Call.run () sampleOp (some [1, 2]) 5 none 5000 false).apply sampleRegistry
          (NewPrecompileManager baseRules, 0)).1.precompiles
        ≠ (NewPrecompileManager baseRules : precompileManager Nat).activePrecompiles
          sampleRegistry := by
  refine ⟨rfl, rfl, ?_⟩
  intro h
  have h2 := congrArg PrecompileMap.isNil h
  simp [Call.apply, NewPrecompileManager, precompileManager.activePrecompiles,
    baseRules, sampleRegistry, rangeTable, PrecompileMap.isNil] at h2

/-- C7, amended. The table cache is populated on the first query, where a
query is Has or Get: on a freshly constructed dispatcher, after a call to Has
or to Get the cache slot holds the table selected for its rule set. A call to
Run leaves the cache slot as it found it, so a dispatcher that has only served
Run calls still has the empty cache slot. -/
theorem cache_after_first_call {σ S : Type} (reg : Registry σ) (rules : Rules)
    (a : Address) (w : σ) (runs : List (Call σ S))
    (pm : precompileManager σ) (sdb : S) (p : PrecompiledContract σ)
    (input : ByteSlice) (caller : Address) (value : BigIntPtr) (suppliedGas : Nat)
    (readonly : Bool) :
    ((Call.has a : Call σ S).apply reg (NewPrecompileManager rules, w)).1.precompiles
        = (NewPrecompileManager rules : precompileManager σ).activePrecompiles reg
      ∧ ((Call.get a : Call σ S).apply reg (NewPrecompileManager rules, w)).1.precompiles
        = (NewPrecompileManager rules : precompileManager σ).activePrecompiles reg
      ∧ ((Call.run sdb p input caller value suppliedGas readonly).apply reg
          (pm, w)).1.precompiles = pm.precompiles
      ∧ (runs.all Call.isRun = true →
        (runCalls reg runs (NewPrecompileManager rules, w)).1.precompiles
          = PrecompileMap.nil) := by
  refine ⟨resolve_New reg rules, resolve_New reg rules, rfl, ?_⟩
  intro hruns
  suffices hgen : ∀ s : precompileManager σ × σ,
      (runCalls reg runs s).1.precompiles = s.1.precompiles from hgen _
  induction runs with
  | nil => intro s; rfl
  | cons c runs ih =>
    intro s
    rw [List.all_cons, Bool.and_eq_true] at hruns
    rw [runCalls_cons, ih hruns.2]
    cases c with
    | run => rfl
    | has => simp [Call.isRun] at hruns
    | get => simp [Call.isRun] at hruns

/-- C8. Cache-stability invariant: in every state reachable from
NewPrecompileManager(rules) by Has, Get and Run calls, the stored rule set is
rules and the cache slot is either nil or the table activePrecompiles selects
for rules; and once the slot is not nil, no further sequence of Has, Get and
Run calls changes it. -/
theorem cache_stable {σ S : Type} (reg : Registry σ) (rules : Rules)
    (calls more : List (Call σ S)) (w : σ) :
    (runCalls reg calls (NewPrecompileManager rules, w)).1.rules = rules
      ∧ ((runCalls reg calls (NewPrecompileManager rules, w)).1.precompiles
          = PrecompileMap.nil
        ∨ (runCalls reg calls (NewPrecompileManager rules, w)).1.precompiles
          = (NewPrecompileManager rules : precompileManager σ).activePrecompiles reg)
      ∧ ((runCalls reg calls (NewPrecompileManager rules, w)).1.precompiles.isNil
          = false →
        (runCalls reg more
            (runCalls reg calls (NewPrecompileManager rules, w))).1.precompiles
          = (runCalls reg calls (NewPrecompileManager rules, w)).1.precompiles
        ∧ (runCalls reg more
            (runCalls reg calls (NewPrecompileManager rules, w))).1.rules
          = rules) := by
  have hrules := runCalls_rules reg calls
    ((NewPrecompileManager rules : precompileManager σ), w)
  refine ⟨hrules, ?_, ?_⟩
  · rcases runCalls_precompiles reg calls
      ((NewPrecompileManager rules : precompileManager σ), w) with h | h
    · exact Or.inl h
    · exact Or.inr (h.trans (resolve_New reg rules))
  · intro h
    exact ⟨runCalls_precompiles_of_not_isNil reg more _ h,
      (runCalls_rules reg more _).trans hrules⟩

/-- C9. Idempotence of queries: on any dispatcher, whatever Has, Get and Run
calls are made in between, Has(a) returns what the first Has(a) returned, and
Get(a) returns what the first Get(a) returned. -/
theorem Has_Get_idempotent {σ S : Type} (reg : Registry σ)
    (pm : precompileManager σ) (w : σ) (calls : List (Call σ S)) (a : Address) :
    ((runCalls reg calls ((Call.has a : Call σ S).apply reg (pm, w))).1.Has reg a).1
        = (pm.Has reg a).1
      ∧ ((runCalls reg calls
          ((Call.get a : Call σ S).apply reg (pm, w))).1.Get reg a).1
        = (pm.Get reg a).1
      ∧ ((runCalls reg calls (pm, w)).1.Has reg a).1 = (pm.Has reg a).1
      ∧ ((runCalls reg calls (pm, w)).1.Get reg a).1 = (pm.Get reg a).1 := by
  simp only [precompileManager.Has, precompileManager.Get]
  simp only [runCalls_resolve_precompiles, apply_resolve_precompiles, and_self]

/-! ## Monotonicity of selection -/

theorem flagsLE_elim {r1 r2 : Rules} (h : r1.flagsLE r2 = true) :
    (r1.IsByzantium = true → r2.IsByzantium = true)
      ∧ (r1.IsIstanbul = true → r2.IsIstanbul = true)
      ∧ (r1.IsBerlin = true → r2.IsBerlin = true) := by
  simp only [Rules.flagsLE, implies, Bool.and_eq_true, Bool.or_eq_true,
    Bool.not_eq_true'] at h
  refine ⟨fun hb => ?_, fun hb => ?_, fun hb => ?_⟩
  · rcases h.1.1.1.1.1.1.1.1.1.2 with h1 | h1
    · rw [hb] at h1; exact absurd h1 (by decide)
    · exact h1
  · rcases h.1.1.1.1.1.1.2 with h1 | h1
    · rw [hb] at h1; exact absurd h1 (by decide)
    · exact h1
  · rcases h.1.1.1.1.1.2 with h1 | h1
    · rw [hb] at h1; exact absurd h1 (by decide)
    · exact h1

theorem keysSubset_refl {σ : Type} (m : PrecompileMap σ) : m.keysSubset m :=
  fun _ h => h

theorem keysSubset_trans {σ : Type} {m1 m2 m3 : PrecompileMap σ}
    (h12 : m1.keysSubset m2) (h23 : m2.keysSubset m3) : m1.keysSubset m3 :=
  fun a h => h23 a (h12 a h)

/-- The switch of activePrecompiles, as a function of the three flags it
reads, is monotone in the flags when the tables are nested. -/
theorem select_monotone {σ : Type} (reg : Registry σ) (hnest : reg.Nested)
    (b1 i1 z1 b2 i2 z2 : Bool) (hb : b1 = true → b2 = true)
    (hi : i1 = true → i2 = true) (hz : z1 = true → z2 = true) :
    PrecompileMap.keysSubset
      (if b1 then reg.PrecompiledContractsBerlin
        else if i1 then reg.PrecompiledContractsIstanbul
        else if z1 then reg.PrecompiledContractsByzantium
        else reg.PrecompiledContractsHomestead)
      (if b2 then reg.PrecompiledContractsBerlin
        else if i2 then reg.PrecompiledContractsIstanbul
        else if z2 then reg.PrecompiledContractsByzantium
        else reg.PrecompiledContractsHomestead) := by
  obtain ⟨hHB, hBI, hIB⟩ := hnest
  revert hb hi hz
  cases b1 <;> cases i1 <;> cases z1 <;> cases b2 <;> cases i2 <;> cases z2 <;>
    intro hb hi hz <;>
    first
      | exact absurd (hb rfl) (by decide)
      | exact absurd (hi rfl) (by decide)
      | exact absurd (hz rfl) (by decide)
      | exact keysSubset_refl _
      | exact hHB
      | exact hBI
      | exact hIB
      | exact keysSubset_trans hHB hBI
      | exact keysSubset_trans hBI hIB
      | exact keysSubset_trans hHB (keysSubset_trans hBI hIB)

/-- C10. Monotonicity of selection: when the registry tables are additively
nested, and R1 and R2 are rule sets satisfying the chain invariant with every
flag set in R1 also set in R2, the key set of the table selected for R1 is
included in the key set of the table selected for R2; hence Has(a) under R1
implies Has(a) under R2. -/
theorem activePrecompiles_monotone {σ : Type} (reg : Registry σ) (R1 R2 : Rules)
    (hnest : reg.Nested) (_hc1 : R1.chain = true) (_hc2 : R2.chain = true)
    (hle : R1.flagsLE R2 = true) :
    ((NewPrecompileManager R1 : precompileManager σ).activePrecompiles
        reg).keysSubset
        ((NewPrecompileManager R2 : precompileManager σ).activePrecompiles reg)
      ∧ ∀ a : Address, ((NewPrecompileManager R1).Has reg a).1 = true →
        ((NewPrecompileManager R2).Has reg a).1 = true := by
  have hsub : ((NewPrecompileManager R1 : precompileManager σ).activePrecompiles
      reg).keysSubset
      ((NewPrecompileManager R2 : precompileManager σ).activePrecompiles reg) := by
    obtain ⟨lByz, lIst, lBer⟩ := flagsLE_elim hle
    exact select_monotone reg hnest _ _ _ _ _ _ lBer lIst lByz
  refine ⟨hsub, fun a ha => ?_⟩
  simp only [precompileManager.Has, index_snd_eq_hasKey, resolve_New] at ha ⊢
  exact hsub a ha

theorem rangeTable_keysSubset {σ : Type} (op : PrecompiledContract σ)
    (lo hi1 hi2 : Nat) (h : hi1 ≤ hi2) :
    (rangeTable op lo hi1).keysSubset (rangeTable op lo hi2) := by
  intro a ha
  simp only [rangeTable, PrecompileMap.hasKey] at ha ⊢
  by_cases hin : lo ≤ a.val ∧ a.val ≤ hi1
  · have hin2 : lo ≤ a.val ∧ a.val ≤ hi2 := ⟨hin.1, by omega⟩
    simp [hin2]
  · simp [hin] at ha

theorem sampleRegistry_nested : sampleRegistry.Nested :=
  ⟨rangeTable_keysSubset sampleOp 1 4 8 (by decide),
    rangeTable_keysSubset sampleOp 1 8 9 (by decide),
    rangeTable_keysSubset sampleOp 1 9 9 (by decide)⟩

/-- Monotonicity on the sample registry, from the base rule set to the rule set
with every flag up to Berlin. -/
theorem activePrecompiles_monotone_witness :
    ((NewPrecompileManager baseRules : precompileManager Nat).activePrecompiles
        sampleRegistry).keysSubset
        ((NewPrecompileManager berlinRules : precompileManager Nat).activePrecompiles
          sampleRegistry)
      ∧ ∀ a : Address, ((NewPrecompileManager baseRules).Has sampleRegistry a).1 = true →
        ((NewPrecompileManager berlinRules).Has sampleRegistry a).1 = true :=
  activePrecompiles_monotone sampleRegistry baseRules berlinRules
    sampleRegistry_nested (by decide) (by decide) (by decide)

/-! ## Argument threading -/

/-- C11. Argument threading. Run against the call-recording double of p: the
log is left as it was when the gas does not cover the cost, and otherwise
grows by the one entry made of context.Background() and exactly the input,
caller, value and readonly that Run was given. The cost is asked for that same
input: an operation q that executes as p does and charges the same for input
gives the same Run result, whatever it charges for other inputs. Run enforces
nothing on readonly: when p's execution returns the same for readonly true and
false, so does Run. -/
theorem Run_threads_arguments {σ S : Type} (pm : precompileManager σ)
    (pmd : precompileManager (σ × List RunCall)) (sdb : S)
    (p : PrecompiledContract σ) (input : ByteSlice) (caller : Address)
    (value : BigIntPtr) (suppliedGas : Nat) (readonly : Bool) (w : σ)
    (log : List RunCall) :
    (pmd.Run sdb (recordingDouble p) input caller value suppliedGas readonly
          (w, log)).2.2
        = (if p.RequiredGas input > suppliedGas then log
          else log ++ [⟨Context.Background, input, caller, value, readonly⟩])
      ∧ (∀ q : PrecompiledContract σ, q.Run = p.Run →
          q.RequiredGas input = p.RequiredGas input →
          pm.Run sdb q input caller value suppliedGas readonly w
            = pm.Run sdb p input caller value suppliedGas readonly w)
      ∧ (p.Run Context.Background input caller value true w
          = p.Run Context.Background input caller value false w →
        pm.Run sdb p input caller value suppliedGas true w
          = pm.Run sdb p input caller value suppliedGas false w) := by
  refine ⟨?_, ?_, ?_⟩
  · by_cases h : p.RequiredGas input > suppliedGas
    · simp [precompileManager.Run, recordingDouble, h]
    · simp [precompileManager.Run, recordingDouble, h]
  · intro q hrun hgas
    simp only [precompileManager.Run, hrun, hgas]
  · intro hro
    simp only [precompileManager.Run, hro]

/-- The sample operation ignores readonly, and so does Run on it. -/
theorem Run_threads_arguments_witness :
    (NewPrecompileManager baseRules).Run () sampleOp (some [1, 2]) 5 (some 7) 5000 true 0
      = (NewPrecompileManager baseRules).Run () sampleOp (some [1, 2]) 5 (some 7) 5000
          false 0 :=
  (Run_threads_arguments (NewPrecompileManager baseRules)
    (NewPrecompileManager baseRules) () sampleOp (some [1, 2]) 5 (some 7) 5000
    true 0 []).2.2 rfl

/-! ## Flags the selector does not read -/

/-- The selected table is a function of the three flags the switch reads. -/
theorem activePrecompiles_of_flags {σ : Type} (reg : Registry σ)
    (pm1 pm2 : precompileManager σ)
    (hByz : pm1.rules.IsByzantium = pm2.rules.IsByzantium)
    (hIst : pm1.rules.IsIstanbul = pm2.rules.IsIstanbul)
    (hBer : pm1.rules.IsBerlin = pm2.rules.IsBerlin) :
    pm1.activePrecompiles reg = pm2.activePrecompiles reg := by
  simp only [precompileManager.activePrecompiles, hByz, hIst, hBer]

/-- C12. Unknown or newer flags are ignored: two rule sets that agree on
IsByzantium, IsIstanbul and IsBerlin select the same table, whatever their
other flags and chain id, and dispatchers built from them give the same Has
and Get answers in any states reached by Has, Get and Run calls; and a rule
set with IsBerlin set is served the Berlin table whatever newer flags it
carries. -/
theorem activePrecompiles_ignores_other_flags {σ S : Type} (reg : Registry σ)
    (R1 R2 : Rules) (hByz : R1.IsByzantium = R2.IsByzantium)
    (hIst : R1.IsIstanbul = R2.IsIstanbul) (hBer : R1.IsBerlin = R2.IsBerlin) :
    (NewPrecompileManager R1 : precompileManager σ).activePrecompiles reg
        = (NewPrecompileManager R2 : precompileManager σ).activePrecompiles reg
      ∧ (∀ (calls1 calls2 : List (Call σ S)) (w1 w2 : σ) (a : Address),
          ((runCalls reg calls1 (NewPrecompileManager R1, w1)).1.Has reg a).1
              = ((runCalls reg calls2 (NewPrecompileManager R2, w2)).1.Has reg a).1
            ∧ ((runCalls reg calls1 (NewPrecompileManager R1, w1)).1.Get reg a).1
              = ((runCalls reg calls2 (NewPrecompileManager R2, w2)).1.Get reg a).1)
      ∧ (R1.IsBerlin = true →
          (NewPrecompileManager R1 : precompileManager σ).activePrecompiles reg
            = reg.PrecompiledContractsBerlin) := by
  have hsel : (NewPrecompileManager R1 : precompileManager σ).activePrecompiles reg
      = (NewPrecompileManager R2 : precompileManager σ).activePrecompiles reg :=
    activePrecompiles_of_flags reg _ _ hByz hIst hBer
  refine ⟨hsel, ?_, ?_⟩
  · intro calls1 calls2 w1 w2 a
    simp only [precompileManager.Has, precompileManager.Get]
    rw [runCalls_resolve_precompiles, runCalls_resolve_precompiles, resolve_New,
      resolve_New, hsel]
    exact ⟨rfl, rfl⟩
  · intro hb
    simp [precompileManager.activePrecompiles, NewPrecompileManager, hb]

/-- The Berlin rule set and the Shanghai rule set, which adds London, Merge and
Shanghai and a chain id, are served the same table, the Berlin one. -/
theorem activePrecompiles_ignores_other_flags_witness :
    (NewPrecompileManager berlinRules : precompileManager Nat).activePrecompiles
        sampleRegistry
        = (NewPrecompileManager shanghaiRules : precompileManager Nat).activePrecompiles
          sampleRegistry
      ∧ (∀ (calls1 calls2 : List (Call Nat Unit)) (w1 w2 : Nat) (a : Address),
          ((runCalls sampleRegistry calls1
              (NewPrecompileManager berlinRules, w1)).1.Has sampleRegistry a).1
              = ((runCalls sampleRegistry calls2
                (NewPrecompileManager shanghaiRules, w2)).1.Has sampleRegistry a).1
            ∧ ((runCalls sampleRegistry calls1
              (NewPrecompileManager berlinRules, w1)).1.Get sampleRegistry a).1
              = ((runCalls sampleRegistry calls2
                (NewPrecompileManager shanghaiRules, w2)).1.Get sampleRegistry a).1)
      ∧ (berlinRules.IsBerlin = true →
          (NewPrecompileManager berlinRules : precompileManager Nat).activePrecompiles
            sampleRegistry = sampleRegistry.PrecompiledContractsBerlin) :=
  activePrecompiles_ignores_other_flags sampleRegistry berlinRules shanghaiRules
    rfl rfl rfl

/-! ## Lazy and eager resolution -/

theorem resolve_NewEager {σ : Type} (reg : Registry σ) (rules : Rules) :
    ((NewEagerPrecompileManager reg rules).resolve reg).precompiles
      = (NewPrecompileManager rules : precompileManager σ).activePrecompiles reg := by
  cases h : (NewEagerPrecompileManager reg rules).precompiles.isNil with
  | false =>
    rw [resolve_of_not_isNil reg _ h]
    rfl
  | true =>
    rw [resolve_of_isNil reg _ h]
    exact activePrecompiles_congr reg _ _ rfl

theorem ask_resolve_precompiles {σ : Type} (reg : Registry σ) (q : Query)
    (pm : precompileManager σ) :
    ((q.ask reg pm).2.resolve reg).precompiles = (pm.resolve reg).precompiles := by
  cases q <;>
    simp [Query.ask, precompileManager.Has, precompileManager.Get,
      resolve_resolve_precompiles]

theorem ask_fst_congr {σ : Type} (reg : Registry σ) (q : Query)
    (pm1 pm2 : precompileManager σ)
    (h : (pm1.resolve reg).precompiles = (pm2.resolve reg).precompiles) :
    (q.ask reg pm1).1 = (q.ask reg pm2).1 := by
  cases q <;>
    simp [Query.ask, precompileManager.Has, precompileManager.Get, h]

/-- The answers to a sequence of queries depend on the dispatcher only through
the table its first lookup would answer from. -/
theorem answers_congr {σ : Type} (reg : Registry σ) (qs : List Query)
    (pm1 pm2 : precompileManager σ)
    (h : (pm1.resolve reg).precompiles = (pm2.resolve reg).precompiles) :
    answers reg qs pm1 = answers reg qs pm2 := by
  induction qs generalizing pm1 pm2 with
  | nil => rfl
  | cons q qs ih =>
    simp only [answers]
    rw [ask_fst_congr reg q pm1 pm2 h]
    rw [ih (q.ask reg pm1).2 (q.ask reg pm2).2
      (by rw [ask_resolve_precompiles, ask_resolve_precompiles, h])]

theorem answers_length {σ : Type} (reg : Registry σ) (qs : List Query)
    (pm : precompileManager σ) : (answers reg qs pm).length = qs.length := by
  induction qs generalizing pm with
  | nil => rfl
  | cons q qs ih => simp [answers, ih]

/-- C13. Lazy resolution refines eager resolution: for every rule set and every
finite sequence of Has and Get queries, the dispatcher built by
NewPrecompileManager (cache empty, filled by the first query) gives one answer
per query, and these are, query by query, the answers of a dispatcher whose
cache slot is set to activePrecompiles(rules) at construction. -/
theorem lazy_refines_eager {σ : Type} (reg : Registry σ) (rules : Rules)
    (qs : List Query) :
    answers reg qs (NewPrecompileManager rules)
        = answers reg qs (NewEagerPrecompileManager reg rules)
      ∧ (answers reg qs (NewPrecompileManager rules)).length = qs.length := by
  refine ⟨answers_congr reg qs _ _ ?_, answers_length reg qs _⟩
  rw [resolve_New, resolve_NewEager]

/-! ## What Run does not depend on -/

/-- C14. Run is independent of the state handle and of the dispatcher: for a
fixed operation p (a function of its own state, hence deterministic), input,
caller, value, suppliedGas and readonly, Run returns the same output,
remaining gas and error, and leaves the same operation state, for any two
state handles (of any types) and on any two dispatchers, whatever their rule
sets and cache slots. In particular a dispatcher whose table has no key at all
runs p as any other dispatcher does: p need not be a member of the table. -/
theorem Run_independent_of_handle_and_dispatcher {σ S1 S2 : Type}
    (pm1 pm2 : precompileManager σ) (sdb1 : S1) (sdb2 : S2)
    (p : PrecompiledContract σ) (input : ByteSlice) (caller : Address)
    (value : BigIntPtr) (suppliedGas : Nat) (readonly : Bool) (w : σ) :
    pm1.Run sdb1 p input caller value suppliedGas readonly w
        = pm2.Run sdb2 p input caller value suppliedGas readonly w
      ∧ (∀ reg : Registry σ, (∀ a : Address, (pm1.Has reg a).1 = false) →
          pm1.Run sdb1 p input caller value suppliedGas readonly w
            = pm2.Run sdb2 p input caller value suppliedGas readonly w) := by
  have h : pm1.Run sdb1 p input caller value suppliedGas readonly w
      = pm2.Run sdb2 p input caller value suppliedGas readonly w := by
    simp only [precompileManager.Run]
  exact ⟨h, fun _ _ => h⟩

/-- On the registry of nil tables no address is a key, and the fresh base
dispatcher runs the sample operation just as a dispatcher with a populated
cache does, with another state handle. -/
theorem Run_independent_of_handle_and_dispatcher_witness :
    (NewPrecompileManager baseRules).Run () sampleOp (some [1, 2]) 5 none 5000 false 0
      = (NewEagerPrecompileManager sampleRegistry berlinRules).Run (3 : Nat) sampleOp
          (some [1, 2]) 5 none 5000 false 0 :=
  (Run_independent_of_handle_and_dispatcher (NewPrecompileManager baseRules)
    (NewEagerPrecompileManager sampleRegistry berlinRules) () (3 : Nat) sampleOp
    (some [1, 2]) 5 none 5000 false 0).2 nilRegistry (fun _ => rfl)

/-! ## Gas arithmetic -/

/-- C15. Gas never grows and the uint64 subtraction never wraps: for every
operation, input and uint64 suppliedGas, the remaining gas returned by Run is
at most suppliedGas and is itself a uint64; when the gas covers the cost,
remainingGas + RequiredGas(input) = suppliedGas as natural numbers, with no
reduction modulo 2 ^ 64; and when it does not, the remaining gas is 0. No
bound on the cost has to be assumed. -/
theorem Run_gas_never_grows {σ S : Type} (pm : precompileManager σ) (sdb : S)
    (p : PrecompiledContract σ) (input : ByteSlice) (caller : Address)
    (value : BigIntPtr) (suppliedGas : Nat) (readonly : Bool) (w : σ)
    (hS : suppliedGas < UINT64_MOD) :
    (pm.Run sdb p input caller value suppliedGas readonly w).1.remainingGas
        ≤ suppliedGas
      ∧ (pm.Run sdb p input caller value suppliedGas readonly w).1.remainingGas
        < UINT64_MOD
      ∧ (¬ p.RequiredGas input > suppliedGas →
        (pm.Run sdb p input caller value suppliedGas readonly w).1.remainingGas
            + p.RequiredGas input = suppliedGas
          ∧ (pm.Run sdb p input caller value suppliedGas readonly w).1.remainingGas
            = subUint64 suppliedGas (p.RequiredGas input))
      ∧ (p.RequiredGas input > suppliedGas →
        (pm.Run sdb p input caller value suppliedGas readonly w).1.remainingGas
          = 0) := by
  have hpos : 0 < UINT64_MOD := by unfold UINT64_MOD; positivity
  by_cases h : p.RequiredGas input > suppliedGas
  · have hrem : (pm.Run sdb p input caller value suppliedGas readonly w).1.remainingGas
        = 0 := by
      simp [precompileManager.Run, h]
    rw [hrem]
    exact ⟨Nat.zero_le _, hpos, fun hn => absurd h hn, fun _ => rfl⟩
  · have hG : p.RequiredGas input ≤ suppliedGas := by omega
    have hrem : (pm.Run sdb p input caller value suppliedGas readonly w).1.remainingGas
        = subUint64 suppliedGas (p.RequiredGas input) := by
      simp [precompileManager.Run, h]
    rw [hrem]
    have hsub := subUint64_of_le hS hG
    refine ⟨by omega, by omega, fun _ => ⟨by omega, rfl⟩, fun hn => absurd hn h⟩

/-- The largest uint64 supply against the sample cost of 3000. -/
theorem Run_gas_never_grows_witness :
    ((NewPrecompileManager baseRules).Run () sampleOp none 5 none
          18446744073709551615 false 0).1.remainingGas ≤ 18446744073709551615
      ∧ ((NewPrecompileManager baseRules).Run () sampleOp none 5 none
          18446744073709551615 false 0).1.remainingGas < UINT64_MOD
      ∧ (¬ sampleOp.RequiredGas none > 18446744073709551615 →
        ((NewPrecompileManager baseRules).Run () sampleOp none 5 none
            18446744073709551615 false 0).1.remainingGas
            + sampleOp.RequiredGas none = 18446744073709551615
          ∧ ((NewPrecompileManager baseRules).Run () sampleOp none 5 none
            18446744073709551615 false 0).1.remainingGas
            = subUint64 18446744073709551615 (sampleOp.RequiredGas none))
      ∧ (sampleOp.RequiredGas none > 18446744073709551615 →
        ((NewPrecompileManager baseRules).Run () sampleOp none 5 none
          18446744073709551615 false 0).1.remainingGas = 0) :=
  Run_gas_never_grows (NewPrecompileManager baseRules) () sampleOp none 5 none
    18446744073709551615 false 0 (by decide)

/-! ## The frame of the queries -/

/-- C16. Queries have no effect beyond the cache: in every dispatcher state and
for every address, Has and Get leave the stored rule set unchanged; they leave
a cache slot that is not nil unchanged, and set a nil one to the table selected
for the rule set; and the table selected for the dispatcher is the same after
the call as before it, with the same binding and key status at every
address. -/
theorem queries_frame {σ : Type} (reg : Registry σ) (pm : precompileManager σ)
    (a : Address) :
    ((pm.Has reg a).2.rules = pm.rules ∧ (pm.Get reg a).2.rules = pm.rules)
      ∧ (pm.precompiles.isNil = false →
        (pm.Has reg a).2.precompiles = pm.precompiles
          ∧ (pm.Get reg a).2.precompiles = pm.precompiles)
      ∧ (pm.precompiles.isNil = true →
        (pm.Has reg a).2.precompiles = pm.activePrecompiles reg
          ∧ (pm.Get reg a).2.precompiles = pm.activePrecompiles reg)
      ∧ ((pm.Has reg a).2.activePrecompiles reg = pm.activePrecompiles reg
        ∧ (pm.Get reg a).2.activePrecompiles reg = pm.activePrecompiles reg)
      ∧ (∀ b : Address,
        (((pm.Has reg a).2.activePrecompiles reg).binding b
            = (pm.activePrecompiles reg).binding b
          ∧ ((pm.Has reg a).2.activePrecompiles reg).hasKey b
            = (pm.activePrecompiles reg).hasKey b)
        ∧ (((pm.Get reg a).2.activePrecompiles reg).binding b
            = (pm.activePrecompiles reg).binding b
          ∧ ((pm.Get reg a).2.activePrecompiles reg).hasKey b
            = (pm.activePrecompiles reg).hasKey b)) := by
  have hsel : (pm.resolve reg).activePrecompiles reg = pm.activePrecompiles reg :=
    activePrecompiles_congr reg _ _ (resolve_rules reg pm)
  simp only [precompileManager.Has, precompileManager.Get, resolve_rules, hsel,
    and_self, true_and, implies_true, and_true]
  constructor
  · intro h
    rw [resolve_of_not_isNil reg pm h]
  · intro h
    exact resolve_of_isNil reg pm h

end PolarisGeth
